import Mathlib

/-!
Verification of the `markov_poem` repository (`sonnet.py`) against its
natural-language specification.

The source is a single Python file with five functions:
`read_file` (tokenizer), `generate_chain` (sliding windows),
`create_database` (chain model construction), `do_markov` (generator)
and `db_stats` (statistics reporter).  Each is embedded below as a
computable Lean definition.  Python strings become `String`, lists
become `List`, the ordered dictionary becomes an association list with
unique keys, the process-wide random source becomes an explicit
`g : Nat -> Nat` stream consulted at an increasing index, exceptions
become `Option`, and the two unbounded `while` loops of `do_markov`
take explicit fuel.
-/

namespace Markov

/-- The whitespace test of Python's `str.split()` with no arguments
(space, tab, newline, carriage return, vertical tab, form feed). -/
def isPySpace (c : Char) : Bool :=
  c = ' ' || c = '\t' || c = '\n' || c = '\r' || c = '\x0b' || c = '\x0c'

/-- Worker for `pySplit`: walks the characters, `acc` holds the current
word reversed; words are emitted at whitespace boundaries and at the end,
and empty words are never emitted. -/
def splitWsGo : List Char → List Char → List (List Char)
  | [], acc => if acc.isEmpty then [] else [acc.reverse]
  | c :: cs, acc =>
    if isPySpace c then
      if acc.isEmpty then splitWsGo cs [] else acc.reverse :: splitWsGo cs []
    else
      splitWsGo cs (c :: acc)

/-- Python's `line.split()`: split on runs of whitespace, discarding
empty pieces (so leading/trailing whitespace produces nothing). -/
def pySplit (s : String) : List String :=
  (splitWsGo s.data []).map String.mk

/-- `tmp[-1] = tmp[-1] + '\n'` from `read_file`: replace the last
element of the list by itself with a newline appended. -/
def markNL (tmp : List String) : List String :=
  tmp.dropLast ++ [tmp.getLastD "" ++ "\n"]

/-- `read_file` from `sonnet.py`, with the file abstracted to its list
of lines (Python's `readlines` keeps each line's trailing newline, and
`split()` discards it).  For each line: split on whitespace; if more
than one word resulted, append a newline marker to the last word and
extend the output with the line's words. -/
def read_file (lines : List String) : List String :=
  lines.foldl
    (fun words line =>
      let tmp := pySplit line
      if 1 < tmp.length then words ++ markNL tmp else words)
    []

/-- `generate_chain` from `sonnet.py`: all width-`chain_length` slices
`words[i:i+chain_length]` for `i` in `range(len(words) - chain_length + 1)`.
Natural subtraction in `words.length + 1 - chain_length` matches Python's
empty `range` when the word list is shorter than the chain length. -/
def generate_chain (words : List String) (chain_length : Nat) : List (List String) :=
  (List.range (words.length + 1 - chain_length)).map
    (fun i => (words.drop i).take chain_length)

/-- The chain database: Python's `dict` keyed by tuples of words, as an
association list with pairwise-distinct keys in insertion order. -/
abbrev DB := List (List String × List String)

/-- One `db[key].append(val)` / `db[key] = [val]` step of
`create_database`: if the key is present, append the value to its list,
otherwise add a new entry at the end (Python dicts preserve insertion
order). -/
def dbInsert : DB → List String → String → DB
  | [], key, val => [(key, [val])]
  | (k, vs) :: rest, key, val =>
    if k = key then (k, vs ++ [val]) :: rest
    else (k, vs) :: dbInsert rest key val

/-- `key in db` / `db[key]` lookup. -/
def dbLookup : DB → List String → Option (List String)
  | [], _ => none
  | (k, vs) :: rest, key => if k = key then some vs else dbLookup rest key

/-- `create_database` from `sonnet.py`: fold `dbInsert` over the chains,
keying each chain by all but its last word (`chain[:-1]`) and appending
the last word (`chain[-1]`; chains are nonempty whenever
`chain_length ≥ 1`, so the `getLastD` default is never consulted there). -/
def create_database (words : List String) (chain_length : Nat) : DB :=
  (generate_chain words chain_length).foldl
    (fun db chain => dbInsert db chain.dropLast (chain.getLastD ""))
    []

/-- `next_word.endswith('\n')`. -/
def endsNL (s : String) : Bool := s.data.getLast? = some '\n'

/-- The `random_word` helper inside `do_markov`:
`seed = random.randint(0, len(words) - chain_length)` followed by
`words[seed : seed + chain_length - 1]`.  The random source is the
stream `g` consulted at index `i`; `randint(a, b)` with `a ≤ b` returns
a value in `[a, b]` inclusive, modelled as `g i % (b - a + 1)`.  When
`len(words) < chain_length` the range is empty and Python raises
`ValueError`, modelled as `none`.  On success the next unused stream
index `i + 1` is returned alongside. -/
def random_word (words : List String) (chain_length : Nat) (g : Nat → Nat)
    (i : Nat) : Option (List String × Nat) :=
  if chain_length ≤ words.length then
    let seed := g i % (words.length - chain_length + 1)
    some ((words.drop seed).take (chain_length - 1), i + 1)
  else
    none

/-- The inner `while True` retry loop of `do_markov`:
`random.choice(db[tuple(start)])` with a `KeyError` handler that picks a
fresh `random_word` start and retries.  Fuel bounds the retries (the
Python loop is unbounded); `random.choice` on an empty list would raise,
modelled as `none`.  On success returns the chosen word, the window the
successful lookup used, and the next stream index. -/
def lookupNext (db : DB) (words : List String) (chain_length : Nat)
    (g : Nat → Nat) : Nat → List String → Nat → Option (String × List String × Nat)
  | 0, _, _ => none
  | fuel + 1, start, i =>
    match dbLookup db start with
    | some vs =>
      match vs.get? (g i % vs.length) with
      | some w => some (w, start, i + 1)
      | none => none
    | none =>
      match random_word words chain_length g i with
      | some (start1, i1) => lookupNext db words chain_length g fuel start1 i1
      | none => none

/-- The mutable locals of `do_markov`'s main loop: the output
accumulator `generated`, the sliding window `start`, the completed-line
counter `current`, the last sampled word (`none` before any iteration —
referencing it then is Python's `UnboundLocalError`), and the next
random-stream index. -/
structure MarkovState where
  generated : List String
  start : List String
  current : Nat
  next_word : Option String
  i : Nat
deriving DecidableEq, Repr

/-- The main `while current < size` loop of `do_markov`.  Each iteration
appends `start[0]` to the accumulator (`start[0]` on an empty window
would raise, modelled as `none`), samples a successor through the retry
loop, slides the window (`start = start[1:]; start.append(next_word)`),
and bumps `current` when the sampled word ends with the newline marker.
Fuel bounds the iterations; the loop exits returning the final state. -/
def doMarkovGo (db : DB) (words : List String) (chain_length size : Nat)
    (g : Nat → Nat) : Nat → MarkovState → Option MarkovState
  | 0, _ => none
  | fuel + 1, st =>
    if st.current < size then
      match st.start with
      | [] => none
      | s0 :: _ =>
        match lookupNext db words chain_length g (fuel + 1) st.start st.i with
        | none => none
        | some (nw, start1, i1) =>
          doMarkovGo db words chain_length size g fuel
            { generated := st.generated ++ [s0]
              start := start1.tail ++ [nw]
              current := if endsNL nw then st.current + 1 else st.current
              next_word := some nw
              i := i1 }
    else
      some st

/-- `do_markov` from `sonnet.py`: pick a random start window, run the
main loop, then append the last sampled word (`generated.append(next_word)`
— an `UnboundLocalError`, modelled `none`, when the loop body never ran)
and join the accumulator with single spaces. -/
def do_markov (fuel : Nat) (words : List String) (db : DB)
    (chain_length size : Nat) (g : Nat → Nat) : Option String :=
  match random_word words chain_length g 0 with
  | none => none
  | some (start0, i0) =>
    match doMarkovGo db words chain_length size g fuel
        { generated := [], start := start0, current := 0,
          next_word := none, i := i0 } with
    | none => none
    | some st =>
      match st.next_word with
      | none => none
      | some nw => some (String.intercalate " " (st.generated ++ [nw]))

/-- The quantities computed by `db_stats` (Python floats are modelled as
exact rationals; the printed "Standard Deviation" is the square root of
the `sum_squares` field, taken in the theorems below). -/
structure Stats where
  num_keys : Nat
  avg_options : ℚ
  min_len : Nat
  max_len : Nat
  sum_squares : ℚ
deriving DecidableEq, Repr

/-- `sys.maxint` on a 64-bit CPython 2 build. -/
def sysMaxint : Nat := 2 ^ 63 - 1

/-- `db_stats` from `sonnet.py`: one pass accumulating total, min
(seeded with `sys.maxint`) and max (seeded with 0) of the successor-list
lengths, then `avg_options = num_options / num_keys` (Python raises
`ZeroDivisionError` on an empty database, modelled as `none`), then a
second pass summing squared deviations from the mean.  The function
prints `math.sqrt(sum_squares)` — the sum itself, not divided by
`num_keys` — under the label "Standard Deviation". -/
def db_stats (db : DB) : Option Stats :=
  let num_keys := db.length
  let acc := db.foldl
    (fun (a : Nat × Nat × Nat) e =>
      let tmp_len := e.2.length
      (a.1 + tmp_len,
       if a.2.1 < tmp_len then tmp_len else a.2.1,
       if tmp_len < a.2.2 then tmp_len else a.2.2))
    (0, 0, sysMaxint)
  if num_keys = 0 then none
  else
    let avg_options : ℚ := (acc.1 : ℚ) / (num_keys : ℚ)
    let sum_squares : ℚ :=
      db.foldl (fun s e => s + ((e.2.length : ℚ) - avg_options) ^ 2) 0
    some ⟨num_keys, avg_options, acc.2.2, acc.2.1, sum_squares⟩

/-- All (context, successor) pairs of the database: each key paired with
each element of its successor list, in stored order. -/
def dbPairs : DB → List (List String × String)
  | [] => []
  | (k, vs) :: rest => vs.map (fun v => (k, v)) ++ dbPairs rest

/-- The sliding windows of `generate_chain`, each split into its first
`chain_length - 1` tokens (the context) and its last token (the
successor). -/
def winPairs (words : List String) (chain_length : Nat) :
    List (List String × String) :=
  (generate_chain words chain_length).map
    (fun c => (c.dropLast, c.getLastD ""))

/-- The six-token corpus of the spec's worked example, as produced by
the tokenizer from `["the cat sat\n", "the dog ran\n"]`. -/
def exWords : List String := ["the", "cat", "sat\n", "the", "dog", "ran\n"]

/-- The order-3 database the spec's worked example lists. -/
def exDB : DB :=
  [(["the", "cat"], ["sat\n"]),
   (["cat", "sat\n"], ["the"]),
   (["sat\n", "the"], ["dog"]),
   (["the", "dog"], ["ran\n"])]

/-- Occurrences of the line-break marker in a string.  In the generated
output every `'\n'` sits at the end of some joined token, so this counts
the marker-ending tokens of the output. -/
def newlineCount (s : String) : Nat := s.data.count '\n'

/-- The tokens a single line contributes to `read_file`'s output:
nothing when its whitespace split has fewer than two words, otherwise
the split with the newline marker concatenated onto its last word. -/
def lineTokens (line : String) : List String :=
  let tmp := pySplit line
  if 1 < tmp.length then markNL tmp else []

/-- Modelled from the spec's tokenizer contract (section 4.1), worded as
the spec does: per line, split on whitespace; discard the line when the
split yields fewer than two sub-tokens; otherwise append the line-break
marker to the last sub-token by concatenation and emit that line's
sub-tokens in order; the output is the concatenation over all lines. -/
def tokenizer_spec (lines : List String) : List String :=
  (lines.map (fun line =>
    let tmp := pySplit line
    if tmp.length < 2 then []
    else tmp.dropLast ++ [tmp.getLastD "" ++ "\n"])).flatten

/-- Inserting one pair adds exactly that pair to the database's pair
multiset. -/
theorem dbPairs_dbInsert (db : DB) (key : List String) (val : String) :
    List.Perm (dbPairs (dbInsert db key val)) (dbPairs db ++ [(key, val)]) := by
  induction db with
  | nil => simp [dbInsert, dbPairs]
  | cons e rest ih =>
    obtain ⟨k, vs⟩ := e
    by_cases h : k = key
    · subst h
      simp only [dbInsert, if_pos rfl, dbPairs, List.map_append,
        List.map_cons, List.map_nil]
      rw [List.append_assoc, List.append_assoc]
      exact List.Perm.append_left _
        (@List.perm_append_comm _ [(k, val)] (dbPairs rest))
    · simp only [dbInsert, if_neg h, dbPairs]
      rw [List.append_assoc]
      exact List.Perm.append_left _ ih

/-- Folding insertions over a chain list appends exactly the chains'
(context, successor) splits to the pair multiset. -/
theorem dbPairs_foldl (chains : List (List String)) (db : DB) :
    List.Perm
      (dbPairs (chains.foldl
        (fun d c => dbInsert d c.dropLast (c.getLastD "")) db))
      (dbPairs db ++ chains.map (fun c => (c.dropLast, c.getLastD ""))) := by
  induction chains generalizing db with
  | nil => simp [List.Perm.refl]
  | cons c cs ih =>
    simp only [List.foldl_cons, List.map_cons]
    refine List.Perm.trans (ih _) ?_
    refine List.Perm.trans
      (List.Perm.append_right _ (dbPairs_dbInsert db _ _)) ?_
    rw [List.append_assoc, List.singleton_append]

/-- Insertion preserves "every successor list is nonempty". -/
theorem dbInsert_values_ne_nil {db : DB}
    (hdb : ∀ e ∈ db, e.2 ≠ []) (key : List String) (val : String) :
    ∀ e ∈ dbInsert db key val, e.2 ≠ [] := by
  induction db with
  | nil =>
    intro e he
    simp [dbInsert] at he
    subst he
    simp
  | cons e0 rest ih =>
    obtain ⟨k, vs⟩ := e0
    intro e he
    by_cases h : k = key
    · simp only [dbInsert, if_pos h] at he
      rcases List.mem_cons.mp he with rfl | he
      · simp
      · exact hdb e (List.mem_cons_of_mem _ he)
    · simp only [dbInsert, if_neg h] at he
      rcases List.mem_cons.mp he with rfl | he
      · exact hdb _ (List.mem_cons_self _ _)
      · exact ih (fun x hx => hdb x (List.mem_cons_of_mem _ hx)) e he

/-- The fold preserves "every successor list is nonempty". -/
theorem foldl_values_ne_nil (chains : List (List String)) (db : DB)
    (hdb : ∀ e ∈ db, e.2 ≠ []) :
    ∀ e ∈ chains.foldl
      (fun d c => dbInsert d c.dropLast (c.getLastD "")) db, e.2 ≠ [] := by
  induction chains generalizing db with
  | nil => exact hdb
  | cons c cs ih =>
    simp only [List.foldl_cons]
    exact ih _ (dbInsert_values_ne_nil hdb _ _)

/-- Every window `generate_chain` yields has width `chain_length`, as
long as the corpus is at least that long. -/
theorem generate_chain_length {words : List String} {chain_length : Nat}
    (hlen : chain_length ≤ words.length) :
    ∀ c ∈ generate_chain words chain_length, c.length = chain_length := by
  intro c hc
  unfold generate_chain at hc
  rcases List.mem_map.mp hc with ⟨i, hi, rfl⟩
  rw [List.mem_range] at hi
  simp only [List.length_take, List.length_drop]
  omega

/-- When the corpus is shorter than the chain length, Python's
`range(len(words) - chain_length + 1)` is empty and no windows are
produced. -/
theorem generate_chain_eq_nil {words : List String} {chain_length : Nat}
    (h : words.length < chain_length) :
    generate_chain words chain_length = [] := by
  unfold generate_chain
  have hz : words.length + 1 - chain_length = 0 := by omega
  simp [hz]

theorem read_file_foldl (lines : List String) (acc : List String) :
    lines.foldl
      (fun words line =>
        let tmp := pySplit line
        if 1 < tmp.length then words ++ markNL tmp else words)
      acc
      = acc ++ (lines.map lineTokens).flatten := by
  induction lines generalizing acc with
  | nil => simp
  | cons l ls ih =>
    simp only [List.foldl_cons, List.map_cons, List.flatten_cons, ih]
    unfold lineTokens
    by_cases h : 1 < (pySplit l).length
    · simp [h, List.append_assoc]
    · simp [h]

/-- `read_file` is the per-line token contributions, concatenated. -/
theorem read_file_eq (lines : List String) :
    read_file lines = (lines.map lineTokens).flatten := by
  unfold read_file
  rw [read_file_foldl]
  rfl

/-- Every piece emitted by the split worker is a nonempty word of
non-whitespace characters, provided the running accumulator holds only
non-whitespace characters. -/
theorem splitWsGo_sound :
    ∀ (cs acc : List Char), (∀ c ∈ acc, isPySpace c = false) →
      ∀ t ∈ splitWsGo cs acc, t ≠ [] ∧ ∀ c ∈ t, isPySpace c = false := by
  intro cs
  induction cs with
  | nil =>
    intro acc hacc t ht
    cases acc with
    | nil => simp [splitWsGo] at ht
    | cons a as =>
      simp [splitWsGo] at ht
      subst ht
      refine ⟨by simp, ?_⟩
      intro c hc
      exact hacc c (by simp at hc ⊢; tauto)
  | cons c cs ih =>
    intro acc hacc t ht
    by_cases hsp : isPySpace c
    · cases acc with
      | nil =>
        simp [splitWsGo, hsp] at ht
        exact ih [] (by simp) t ht
      | cons a as =>
        simp [splitWsGo, hsp] at ht
        rcases ht with rfl | ht
        · refine ⟨by simp, ?_⟩
          intro x hx
          exact hacc x (by simp at hx ⊢; tauto)
        · exact ih [] (by simp) t ht
    · simp [splitWsGo, hsp] at ht
      refine ih (c :: acc) ?_ t ht
      intro x hx
      rcases List.mem_cons.mp hx with rfl | hx
      · simpa using hsp
      · exact hacc x hx

/-- Every token of a Python `split()` is nonempty and free of
whitespace characters. -/
theorem pySplit_sound (s : String) :
    ∀ t ∈ pySplit s, t.data ≠ [] ∧ ∀ c ∈ t.data, isPySpace c = false := by
  intro t ht
  rcases List.mem_map.mp ht with ⟨l, hl, rfl⟩
  exact splitWsGo_sound s.data [] (by simp) l hl

/-- No raw split token ends with the newline marker. -/
theorem endsNL_of_mem_pySplit {s t : String} (h : t ∈ pySplit s) :
    endsNL t = false := by
  obtain ⟨hne, hall⟩ := pySplit_sound s t h
  simp only [endsNL, decide_eq_false_iff_not]
  intro hlast
  have hmem : '\n' ∈ t.data := List.mem_of_getLast?_eq_some hlast
  have := hall '\n' hmem
  simp [isPySpace] at this

/-- Concatenating the marker onto any string makes it marker-ending. -/
theorem endsNL_append_nl (t : String) : endsNL (t ++ "\n") = true := by
  simp only [endsNL, decide_eq_true_eq]
  show (t.data ++ ['\n']).getLast? = some '\n'
  exact List.getLast?_concat _

/-- A qualifying line contributes exactly one marker-ending token; a
skipped line contributes none. -/
theorem countP_endsNL_lineTokens (l : String) :
    (lineTokens l).countP endsNL = if 2 ≤ (pySplit l).length then 1 else 0 := by
  unfold lineTokens markNL
  by_cases h : 1 < (pySplit l).length
  · rw [if_pos h, if_pos (by omega), List.countP_append]
    have h0 : (pySplit l).dropLast.countP endsNL = 0 := by
      rw [List.countP_eq_zero]
      intro t ht
      simp [endsNL_of_mem_pySplit (List.dropLast_subset _ ht)]
    rw [h0]
    simp [List.countP_cons, endsNL_append_nl]
  · rw [if_neg h, if_neg (by omega)]
    rfl

end Markov

namespace Markov

/-- C8: `create_database` has no failure modes — on any token sequence
strictly shorter than the order it returns the empty database rather
than raising. -/
theorem create_database_short_empty (words : List String) (chain_length : Nat)
    (h : words.length < chain_length) :
    create_database words chain_length = [] := by
  unfold create_database
  rw [generate_chain_eq_nil h]
  rfl

/-- Witness for `create_database_short_empty` at the concrete input
`["lonely"]` with order 3. -/
theorem create_database_short_empty_witness :
    (["lonely"] : List String).length < 3 ∧ create_database ["lonely"] 3 = [] :=
  ⟨by decide, create_database_short_empty ["lonely"] 3 (by decide)⟩

/-- C5 counterexample: on a one-token corpus with order 3,
`create_database` returns an empty model — model construction does not
fail fast with a typed `EmptyCorpusError` (no such error exists in the
code). -/
theorem short_corpus_no_typed_error_counterexample :
    create_database ["hello"] 3 = [] := by
  decide

/-- C5 amended: on a corpus shorter than the order, `create_database`
silently builds the degenerate empty model, and `do_markov` fails at its
very first `random_word` call (Python's `randint` on an empty range
raises an untyped `ValueError`, modelled as `none`) — not a typed
`EmptyCorpusError`. -/
theorem short_corpus_behavior (fuel : Nat) (words : List String) (db : DB)
    (chain_length size : Nat) (g : Nat → Nat)
    (h : words.length < chain_length) :
    create_database words chain_length = [] ∧
    do_markov fuel words db chain_length size g = none := by
  constructor
  · unfold create_database
    rw [generate_chain_eq_nil h]
    rfl
  · unfold do_markov random_word
    simp [Nat.not_le.mpr h]

/-- Witness for `short_corpus_behavior` at the concrete input `["a"]`
with order 3. -/
theorem short_corpus_behavior_witness :
    (["a"] : List String).length < 3 ∧
    (create_database ["a"] 3 = [] ∧
      do_markov 5 ["a"] [] 3 1 (fun _ => 0) = none) :=
  ⟨by decide, short_corpus_behavior 5 ["a"] [] 3 1 (fun _ => 0) (by decide)⟩

/-- C6: for every order at least 2 and corpus at least that long, every
successor list of `create_database` is nonempty, every window
`generate_chain` slides has the full width, and the multiset of
(context, successor) pairs of the database is exactly the multiset of
width-`k` windows, each split into its first `k - 1` tokens and its last
token. -/
theorem create_database_window_multiset (words : List String) (k : Nat)
    (h2 : 2 ≤ k) (hlen : k ≤ words.length) :
    (∀ e ∈ create_database words k, e.2 ≠ []) ∧
    (∀ c ∈ generate_chain words k, c.length = k) ∧
    List.Perm (dbPairs (create_database words k)) (winPairs words k) := by
  refine ⟨?_, generate_chain_length hlen, ?_⟩
  · unfold create_database
    exact foldl_values_ne_nil _ [] (by simp)
  · unfold create_database winPairs
    have := dbPairs_foldl (generate_chain words k) []
    simpa [dbPairs] using this

/-- Witness for `create_database_window_multiset` on the worked
example's six-token corpus with order 3. -/
theorem create_database_window_multiset_witness :
    ((2 : Nat) ≤ 3 ∧ 3 ≤ exWords.length) ∧
    ((∀ e ∈ create_database exWords 3, e.2 ≠ []) ∧
      (∀ c ∈ generate_chain exWords 3, c.length = 3) ∧
      List.Perm (dbPairs (create_database exWords 3)) (winPairs exWords 3)) :=
  ⟨⟨by decide, by decide⟩,
    create_database_window_multiset exWords 3 (by decide) (by decide)⟩

/-- C9: `read_file` refines the spec's tokenizer contract — for every
sequence of input lines it equals the spec-worded per-line
split/skip/mark/extend pipeline, and an empty input yields an empty
token sequence. -/
theorem read_file_refines_spec :
    (∀ lines : List String, read_file lines = tokenizer_spec lines) ∧
    read_file [] = [] := by
  constructor
  · intro lines
    rw [read_file_eq]
    unfold tokenizer_spec
    have hfun : lineTokens = fun line =>
        let tmp := pySplit line
        if tmp.length < 2 then []
        else tmp.dropLast ++ [tmp.getLastD "" ++ "\n"] := by
      funext line
      unfold lineTokens markNL
      by_cases h : 1 < (pySplit line).length
      · rw [if_pos h, if_neg (by omega)]
      · rw [if_neg h, if_pos (by omega)]
    rw [hfun]
  · rfl

/-- C10: in `read_file`'s output, the number of marker-ending tokens
equals the number of input lines whose whitespace split has at least two
words; and within any single line's contribution, a token ends with the
marker exactly when it is that contribution's last token. -/
theorem read_file_marker_count :
    (∀ lines : List String,
      (read_file lines).countP endsNL =
        lines.countP (fun l => decide (2 ≤ (pySplit l).length))) ∧
    (∀ l : String, ∀ t ∈ lineTokens l,
      (endsNL t = true ↔ (lineTokens l).getLast? = some t)) := by
  constructor
  · intro lines
    rw [read_file_eq]
    induction lines with
    | nil => rfl
    | cons l ls ih =>
      simp only [List.map_cons, List.flatten_cons, List.countP_append,
        List.countP_cons, ih, countP_endsNL_lineTokens]
      by_cases h : 2 ≤ (pySplit l).length
      · simp [h]
        omega
      · simp [h]
  · intro l t ht
    unfold lineTokens at ht ⊢
    by_cases h : 1 < (pySplit l).length
    · rw [if_pos h] at ht ⊢
      unfold markNL at ht ⊢
      rw [List.getLast?_concat]
      constructor
      · intro hNL
        rcases List.mem_append.mp ht with hd | hm
        · have := endsNL_of_mem_pySplit (List.dropLast_subset _ hd)
          rw [hNL] at this
          cases this
        · simp only [List.mem_singleton] at hm
          rw [hm]
      · intro hsome
        have : t = (pySplit l).getLastD "" ++ "\n" := by
          injection hsome with h'
          exact h'.symm
        rw [this]
        exact endsNL_append_nl _
    · rw [if_neg h] at ht
      simp at ht

/-- Witness for `read_file_marker_count` at the line `"a b"` and the
token `"b\n"` it contributes last. -/
theorem read_file_marker_count_witness :
    ("b\n" ∈ lineTokens "a b") ∧
    (endsNL "b\n" = true ↔ (lineTokens "a b").getLast? = some "b\n") :=
  ⟨by decide, read_file_marker_count.2 "a b" "b\n" (by decide)⟩

/-- C2 counterexample: on the spec's worked example (order 3, one target
line, random stream constantly 0 so that the start window is
`("the", "cat")`), `do_markov` returns `"the sat\n"`, not the claimed
`"the cat sat\n"`: the loop body appended only the window head `"the"`
before the newline-marked sample `"sat\n"` ended the loop, and the word
`"cat"` still sitting in the window is never written out. -/
theorem example_generation_counterexample :
    do_markov 50 exWords exDB 3 1 (fun _ => 0) = some "the sat\n" ∧
    ("the sat\n" : String) ≠ "the cat sat\n" := by
  decide

/-- C2 amended: the tokenizer and database parts of the worked example
hold exactly as listed, and generation from start window
`("the", "cat")` with `target_lines = 1` deterministically returns
`"the sat\n"` (the middle word of the line is dropped by the
append-then-slide output discipline). -/
theorem example_generation_actual :
    read_file ["the cat sat\n", "the dog ran\n"] = exWords ∧
    create_database exWords 3 = exDB ∧
    do_markov 50 exWords exDB 3 1 (fun _ => 0) = some "the sat\n" := by
  refine ⟨by decide, by decide, by decide⟩

/-- C3 (code bug): on the database
`{("a","b") ↦ ["c"], ("b","c") ↦ ["d","e"]}` the stats pass computes
`sum_of_squared_deviations = 1/2` over `key_count = 2`, and the value
the code prints under "Standard Deviation" — `math.sqrt(sum_squares)`,
the square root of the UNDIVIDED sum — differs from the claimed
population standard deviation `sqrt(sum_squares / key_count)`. -/
theorem db_stats_std_deviation_bug :
    ∃ st : Stats,
      db_stats [(["a", "b"], ["c"]), (["b", "c"], ["d", "e"])] = some st ∧
      st.sum_squares = 1 / 2 ∧
      st.num_keys = 2 ∧
      Real.sqrt (st.sum_squares : ℝ) ≠
        Real.sqrt ((st.sum_squares : ℝ) / (st.num_keys : ℝ)) := by
  refine ⟨⟨2, 3 / 2, 1, 2, 1 / 2⟩, by norm_num [db_stats, sysMaxint], rfl, rfl, ?_⟩
  intro h
  rw [Real.sqrt_inj (by norm_num) (by positivity)] at h
  norm_num at h

/-- C1 counterexample: all the claim's preconditions hold on the worked
example (the model is non-empty and built from the tokens, the corpus
is no shorter than the order, and `target_lines = 1 ≥ 1`), yet with the
random stream constantly 2 the initial window is `("sat\n", "the")` and
the returned string `"sat\n the ran\n"` carries two line-break-marked
tokens, not one: the marker-ending head of the initial window is
emitted without ever being counted. -/
theorem do_markov_marker_count_counterexample :
    create_database exWords 3 = exDB ∧
    exDB ≠ [] ∧
    3 ≤ exWords.length ∧
    do_markov 50 exWords exDB 3 1 (fun _ => 2) = some "sat\n the ran\n" ∧
    newlineCount "sat\n the ran\n" = 2 ∧
    newlineCount "sat\n the ran\n" ≠ 1 := by
  decide

/-- C1 amended: whenever the main loop starts below the target and
terminates, the completed-line counter ends exactly at `target_lines`
and the final sampled token carries the line-break marker — the count of
sampled marker tokens is exact even though the marker count of the
joined output string can differ (see the counterexample: an uncounted
marker-ending window head may be emitted). -/
theorem do_markov_line_counter_exact (db : DB) (words : List String)
    (chain_length size : Nat) (g : Nat → Nat) :
    ∀ fuel (st st' : MarkovState), st.current < size →
      doMarkovGo db words chain_length size g fuel st = some st' →
      st'.current = size ∧
        ∃ nw, st'.next_word = some nw ∧ endsNL nw = true := by
  intro fuel
  induction fuel with
  | zero =>
    intro st st' hlt hgo
    simp [doMarkovGo] at hgo
  | succ f ih =>
    intro st st' hlt hgo
    simp only [doMarkovGo, if_pos hlt] at hgo
    cases hst : st.start with
    | nil => rw [hst] at hgo; simp at hgo
    | cons s0 rest =>
      rw [hst] at hgo
      simp only at hgo
      cases hlook : lookupNext db words chain_length g (f + 1) st.start st.i with
      | none => rw [hst] at hlook; rw [hlook] at hgo; simp at hgo
      | some trip =>
        obtain ⟨nw, start1, i1⟩ := trip
        rw [hst] at hlook
        rw [hlook] at hgo
        simp only at hgo
        by_cases hnl : endsNL nw
        · by_cases hcur : st.current + 1 < size
          · have := ih _ st' (by simp [hnl]; exact hcur) hgo
            exact this
          · cases f with
            | zero => simp [doMarkovGo] at hgo
            | succ f2 =>
              have hc2 : ¬ ((if endsNL nw then st.current + 1 else
                  st.current) < size) := by
                simp [hnl]
                omega
              simp only [doMarkovGo, if_neg hc2] at hgo
              rw [Option.some_inj] at hgo
              subst hgo
              refine ⟨?_, nw, rfl, hnl⟩
              simp only [hnl, if_pos]
              omega
        · exact ih _ st' (by simpa [hnl] using hlt) hgo

/-- Witness for `do_markov_line_counter_exact` on the worked example:
starting at window `("the", "cat")` with one target line, the loop halts
with the counter at 1 and the final sample `"sat\n"`. -/
theorem do_markov_line_counter_exact_witness :
    (0 : Nat) < 1 ∧
    doMarkovGo exDB exWords 3 1 (fun _ => 0) 50
        ⟨[], ["the", "cat"], 0, none, 1⟩ =
      some ⟨["the"], ["cat", "sat\n"], 1, some "sat\n", 2⟩ ∧
    ((1 : Nat) = 1 ∧ ∃ nw, (some "sat\n" : Option String) = some nw ∧
      endsNL nw = true) :=
  ⟨by decide, by decide, by
    have := do_markov_line_counter_exact exDB exWords 3 1 (fun _ => 0) 50
      ⟨[], ["the", "cat"], 0, none, 1⟩
      ⟨["the"], ["cat", "sat\n"], 1, some "sat\n", 2⟩ (by decide) (by decide)
    simpa using this⟩

/-- C7: the generation step works as described — (a) when the current
window is a database key, the sampled successor is the random-index
element of that key's list and the window is unchanged by the lookup;
(b) when the window is absent, the generator draws a brand-new random
start window with the very `random_word` used at initialization and
retries only the lookup; (c) one loop iteration appends exactly the
window head to the accumulator — nothing more, however many retries the
inner loop took — and then slides the successful window by dropping its
first token and appending the sampled one. -/
theorem do_markov_step_semantics (db : DB) (words : List String)
    (chain_length : Nat) (g : Nat → Nat) (fuel i size : Nat)
    (start : List String) (st : MarkovState) :
    (∀ vs w, dbLookup db start = some vs →
      vs.get? (g i % vs.length) = some w →
      lookupNext db words chain_length g (fuel + 1) start i =
        some (w, start, i + 1)) ∧
    (dbLookup db start = none →
      lookupNext db words chain_length g (fuel + 1) start i =
        (match random_word words chain_length g i with
         | some (start1, i1) =>
            lookupNext db words chain_length g fuel start1 i1
         | none => none)) ∧
    (∀ s0 rest nw start1 i1, st.current < size → st.start = s0 :: rest →
      lookupNext db words chain_length g (fuel + 1) st.start st.i =
        some (nw, start1, i1) →
      doMarkovGo db words chain_length size g (fuel + 1) st =
        doMarkovGo db words chain_length size g fuel
          { generated := st.generated ++ [s0]
            start := start1.tail ++ [nw]
            current := if endsNL nw then st.current + 1 else st.current
            next_word := some nw
            i := i1 }) := by
  refine ⟨?_, ?_, ?_⟩
  · intro vs w h1 h2
    rw [List.get?_eq_getElem?] at h2
    simp [lookupNext, h1, h2]
  · intro h
    simp [lookupNext, h]
  · intro s0 rest nw start1 i1 hlt hst hlook
    simp only [doMarkovGo, if_pos hlt]
    rw [hst]
    simp only
    rw [hst] at hlook
    rw [hlook]

/-- Witness for `do_markov_step_semantics`: on the worked example's
database, the hit case at window `("the", "cat")` samples `"sat\n"`. -/
theorem do_markov_step_semantics_witness :
    (dbLookup exDB ["the", "cat"] = some ["sat\n"] ∧
      (["sat\n"] : List String).get? ((fun _ => 0) 0 % 1) = some "sat\n") ∧
    lookupNext exDB exWords 3 (fun _ => 0) 5 ["the", "cat"] 0 =
      some ("sat\n", ["the", "cat"], 1) :=
  ⟨⟨by decide, by decide⟩,
    (do_markov_step_semantics exDB exWords 3 (fun _ => 0) 4 0 0
      ["the", "cat"] ⟨[], [], 0, none, 0⟩).1 ["sat\n"] "sat\n"
      (by decide) (by decide)⟩

/-- C4 counterexample: with `target_lines = 0` on the worked example's
(perfectly valid) corpus and model, `do_markov` produces no string at
all — the post-loop `generated.append(next_word)` reads the never
assigned local `next_word` and the call dies with `UnboundLocalError`
instead of returning a non-empty string. -/
theorem do_markov_zero_lines_counterexample :
    do_markov 50 exWords exDB 3 0 (fun _ => 0) = none := by
  decide

/-- C4 amended: with `target_lines = 0` the main loop body indeed runs
zero times, but the single post-loop append then references the local
`next_word` that no loop iteration ever assigned, so `do_markov` raises
(returns no string) for every corpus, database, order, fuel and random
stream. -/
theorem do_markov_zero_lines_fails (fuel : Nat) (words : List String)
    (db : DB) (chain_length : Nat) (g : Nat → Nat) :
    do_markov fuel words db chain_length 0 g = none := by
  unfold do_markov
  cases h : random_word words chain_length g 0 with
  | none => rfl
  | some p =>
    cases fuel with
    | zero => rfl
    | succ f => simp [doMarkovGo]

end Markov
